import Mathlib

/-!
Verification of the timed auction / giveaway lifecycle engine of the
Marketplace-manager repository.

The Python source is shallowly embedded: the decision logic of each handler
in `src/commands/auction.py`, `src/commands/giveaway.py` and the storage
helpers of `src/database_mysql.py` become pure Lean functions over explicit
record and store types.  Message text is modelled as its character list;
Discord-side effects (thread lookup, user fetches, channel creation) are
modelled by explicit environment flags naming the point at which the
external call can fail, and fire-and-forget notifications become emitted
events.  Monetary amounts and identities are natural numbers; Python `None`
becomes `Option.none`, and Python truthiness of an optional identity is the
explicit `optTruthy` below.
-/

namespace Marketplace

/-- Python truthiness of an optional integer identity: `None` and `0` are
falsy, every other value is truthy. -/
def optTruthy : Option Nat → Bool
  | none => false
  | some n => n ≠ 0

/-! ## Bid-message normalization

`handle_auction_bid` and `process_missed_bids` both clean a candidate
message with `content.strip()`, then
`.replace('$','').replace(',','').replace(' ','').replace('.','')`,
then require `clean_bid.isdigit()` before `int(clean_bid)`. -/

/-- Characters removed by Python's `str.strip()` (ASCII whitespace). -/
def isSpaceChar (c : Char) : Bool :=
  c = ' ' || c = '\t' || c = '\n' || c = '\x0d' || c = '\x0b' || c = '\x0c'

/-- `content.strip()` on the character list of the message. -/
def pyStrip (l : List Char) : List Char :=
  ((l.dropWhile isSpaceChar).reverse.dropWhile isSpaceChar).reverse

/-- The currency punctuation removed by the four `replace` calls. -/
def isCurrencyChar (c : Char) : Bool :=
  c = '$' || c = ',' || c = ' ' || c = '.'

/-- Decimal value of the digit list, as computed by Python `int`. -/
def parseDigits (l : List Char) : Nat :=
  l.foldl (fun a c => a * 10 + (c.toNat - 48)) 0

/-- Normalization shared by the live handler and the replay scan: strip,
drop currency punctuation, and demand a non-empty all-digit remainder.
Returns `none` where the Python code `continue`s / raises `ValueError`
(empty content or a non-digit remainder). -/
def normalizeBid (content : List Char) : Option Nat :=
  let t := pyStrip content
  if t.isEmpty then none
  else
    let cb := t.filter (fun c => !isCurrencyChar c)
    if cb.isEmpty then none
    else if cb.all Char.isDigit then some (parseDigits cb) else none

/-! ## Data model -/

/-- `status` column of an `active_auctions` row. -/
inductive AStatus where
  | active
  | ended
  | closed
  | expired
deriving Repr, DecidableEq

/-- One `active_auctions` row (src/database_mysql.py, `add_active_auction`). -/
structure Auction where
  threadId : Nat
  carName : List Char
  startingBid : Nat
  highestBid : Nat
  highestBidder : Option Nat
  sellerId : Nat
  endTime : Nat
  status : AStatus
  isTest : Bool
deriving Repr, DecidableEq

/-- One `active_deals` row, as created by `add_active_deal`. -/
structure Deal where
  sellerId : Nat
  buyerId : Nat
  carName : List Char
deriving Repr, DecidableEq

/-- Result tag of an `ended_auctions` log row. -/
inductive EndResult where
  | accepted
  | rejected
  | no_bids
deriving Repr, DecidableEq

/-- One `ended_auctions` log row (the fields the claims inspect). -/
structure EndedRecord where
  carName : List Char
  sellerId : Nat
  finalBid : Nat
  winnerId : Nat
  result : EndResult
deriving Repr, DecidableEq

/-- The persistent store slice owned by one auction lifecycle: its
`active_auctions` row (if still present), the `active_deals` table and the
`ended_auctions` log. -/
structure Store where
  auction : Option Auction
  deals : List Deal
  endedLog : List EndedRecord
deriving Repr, DecidableEq

/-- A thread message as read live or from `thread.history`. -/
structure HMsg where
  authorId : Nat
  isBot : Bool
  content : List Char
  createdAt : Nat
deriving Repr, DecidableEq

/-- Fire-and-forget notifications sent by the auction handlers. -/
inductive Event where
  | outbidNotice (target : Nat) (newAmount : Nat)
  | auctionEndedAnnounce
  | sellerDecisionRequest (sellerId : Nat)
  | sellerNoBidsNotice (sellerId : Nat)
deriving Repr, DecidableEq

/-! ## Live bid validation (`handle_auction_bid`, auction.py lines 1840-2073)

The handler's decision logic as a pure function.  The reject constructors
correspond to the handler's early returns: seller bids, self-outbidding,
content that does not normalize to a positive integer (silent return on
empty content, `ValueError` warning otherwise, and the `bid_amount <= 0`
warning), the `999_999_999` ceiling, and `bid_amount <= highest_bid`. -/

def BID_CEILING : Nat := 999999999

inductive BidOutcome where
  | rejectSeller
  | rejectSelfOutbid
  | rejectNotPositiveInt
  | rejectTooLarge
  | rejectNotHigher
  | accept (amount : Nat) (previousBidder : Option Nat)
deriving Repr, DecidableEq

/-- Decision logic of `handle_auction_bid`, in the source's check order. -/
def handle_auction_bid (a : Auction) (authorId : Nat) (content : List Char) :
    BidOutcome :=
  if authorId = a.sellerId then .rejectSeller
  else if optTruthy a.highestBidder && (a.highestBidder == some authorId) then
    .rejectSelfOutbid
  else
    match normalizeBid content with
    | none => .rejectNotPositiveInt
    | some amt =>
      if amt = 0 then .rejectNotPositiveInt
      else if BID_CEILING < amt then .rejectTooLarge
      else if amt ≤ a.highestBid then .rejectNotHigher
      else .accept amt a.highestBidder

/-- `update_auction_bid` (database_mysql.py): store the new bid fields. -/
def update_auction_bid (a : Auction) (amt : Nat) (bidder : Nat) : Auction :=
  { a with highestBid := amt, highestBidder := some bidder }

/-- State effect of delivering one live message to the bid handler. -/
def liveStep (a : Auction) (m : HMsg) : Auction :=
  if m.isBot then a
  else
    match handle_auction_bid a m.authorId m.content with
    | .accept amt _ => update_auction_bid a amt m.authorId
    | _ => a

/-- Notifications of one live delivery: on acceptance the previous highest
bidder is sent the outbid DM when truthy and distinct from the new bidder. -/
def liveStepEvents (a : Auction) (m : HMsg) : List Event :=
  if m.isBot then []
  else
    match handle_auction_bid a m.authorId m.content with
    | .accept amt prev =>
        match prev with
        | some p => if p ≠ 0 ∧ p ≠ m.authorId then [.outbidNotice p amt] else []
        | none => []
    | _ => []

/-- Live processing of a whole message sequence. -/
def liveProcess (a : Auction) (msgs : List HMsg) : Auction :=
  msgs.foldl liveStep a

/-- The spec's §4.1 validator, stated from the spec's own words: the same
five rules in the same order, with the no-self-outbidding rule as a plain
identity comparison against `highest_bidder`.  Used only to compare the
source validator against the specified contract. -/
def validateSpec (a : Auction) (authorId : Nat) (content : List Char) :
    BidOutcome :=
  if authorId = a.sellerId then .rejectSeller
  else if a.highestBidder = some authorId then .rejectSelfOutbid
  else
    match normalizeBid content with
    | none => .rejectNotPositiveInt
    | some amt =>
      if amt = 0 then .rejectNotPositiveInt
      else if BID_CEILING < amt then .rejectTooLarge
      else if amt ≤ a.highestBid then .rejectNotHigher
      else .accept amt a.highestBidder

/-! ## Offline-bid replay (`process_missed_bids`, auction.py lines 1421-1543)

Phase 1 scans the thread history in order, tracking the most recent
bot-authored message time, and collects candidate bids: non-bot non-seller
messages inside the auction window, not older than the bot's last message,
whose content normalizes to an amount in range that beats the *snapshot*
`highest_bid` from an author other than the *snapshot* `highest_bidder`.
Phase 2 sorts the candidates by timestamp and applies each one that still
beats the current highest bid. -/

structure MissedBid where
  amount : Nat
  userId : Nat
  timestamp : Nat
deriving Repr, DecidableEq

/-- Phase 1: the history scan of `process_missed_bids`.  `snapBid` and
`snapBidder` are the bid fields of the `auction_data` snapshot, which the
scan never updates; `lastBot` is `last_bot_message_time`. -/
def replayScan (sellerId snapBid : Nat) (snapBidder : Option Nat)
    (endTime : Nat) (lastBot : Option Nat) : List HMsg → List MissedBid
  | [] => []
  | m :: ms =>
    if m.isBot then
      replayScan sellerId snapBid snapBidder endTime (some m.createdAt) ms
    else if m.authorId = sellerId then
      replayScan sellerId snapBid snapBidder endTime lastBot ms
    else if endTime < m.createdAt then
      replayScan sellerId snapBid snapBidder endTime lastBot ms
    else if lastBot.any (fun t => m.createdAt ≤ t) then
      replayScan sellerId snapBid snapBidder endTime lastBot ms
    else
      match normalizeBid m.content with
      | none => replayScan sellerId snapBid snapBidder endTime lastBot ms
      | some amt =>
        if amt = 0 || BID_CEILING < amt then
          replayScan sellerId snapBid snapBidder endTime lastBot ms
        else if snapBid < amt && (snapBidder != some m.authorId) then
          ⟨amt, m.authorId, m.createdAt⟩ ::
            replayScan sellerId snapBid snapBidder endTime lastBot ms
        else
          replayScan sellerId snapBid snapBidder endTime lastBot ms

/-- Stable insertion used to model `missed_bids.sort(key=timestamp)`
(Python's sort is stable; a stable sort by one key is extensionally
unique, so insertion before the first strictly later element matches it). -/
def insertByTs (x : MissedBid) : List MissedBid → List MissedBid
  | [] => [x]
  | y :: ys =>
      if x.timestamp ≤ y.timestamp then x :: y :: ys else y :: insertByTs x ys

def sortByTs : List MissedBid → List MissedBid
  | [] => []
  | x :: xs => insertByTs x (sortByTs xs)

/-- Phase 2 body: one iteration of the application loop — re-read the
current record and accept the candidate only if it still beats the current
highest bid. -/
def replayApplyStep (a : Auction) (b : MissedBid) : Auction :=
  if a.highestBid < b.amount then update_auction_bid a b.amount b.userId else a

def replayApply (a : Auction) (bids : List MissedBid) : Auction :=
  bids.foldl replayApplyStep a

/-- `process_missed_bids`: scan with the snapshot bid fields, sort by
timestamp, then apply in order. -/
def process_missed_bids (a : Auction) (endTime : Nat) (history : List HMsg) :
    Auction :=
  replayApply a
    (sortByTs (replayScan a.sellerId a.highestBid a.highestBidder endTime none
      history))

/-! ## Seller decision handlers (auction.py lines 2075-2272 and 2274-2390)

Each handler is modelled as an atomic store transformer returning the reply
sent to the seller.  The environment value names the first external call
that fails, matching the handler's failure points: the mutual-guild search
returns `None` (an early `return` with no exception), or an exception is
raised before `add_active_deal` (user fetch, channel creation) or after it
(channel sends); `handle_auction_reject` has no guild search or deal, so
its environment is success or an exception before removal. -/

inductive Reply where
  | noLongerActive
  | alreadyProcessed
  | acceptedOk
  | rejectedOk
  | errorNoGuild
  | errorReverted
deriving Repr, DecidableEq

inductive AcceptEnv where
  | ok
  | noMutualGuild
  | failBeforeDeal
  | failAfterDeal
deriving Repr, DecidableEq

inductive RejectEnv where
  | ok
  | fail
deriving Repr, DecidableEq

/-- `handle_auction_accept`: reply "no longer active" when the row is gone,
"already processed" unless the status is `active` or `ended`, otherwise
flip the status to `closed` first and only then run the side effects.  The
exception handler reverts the status to `active`; the missing-mutual-guild
early return does not. -/
def handle_auction_accept (s : Store) (env : AcceptEnv) : Store × Reply :=
  match s.auction with
  | none => (s, .noLongerActive)
  | some a =>
    if a.status ≠ .active ∧ a.status ≠ .ended then (s, .alreadyProcessed)
    else
      let aClosed := { a with status := .closed }
      let s1 := { s with auction := some aClosed }
      match env with
      | .failBeforeDeal =>
          ({ s1 with auction := some { aClosed with status := .active } },
           .errorReverted)
      | .noMutualGuild => (s1, .errorNoGuild)
      | .failAfterDeal =>
          let d : Deal := ⟨a.sellerId, a.highestBidder.getD 0, a.carName⟩
          let s2 := { s1 with deals := s1.deals ++ [d] }
          ({ s2 with auction := some { aClosed with status := .active } },
           .errorReverted)
      | .ok =>
          let d : Deal := ⟨a.sellerId, a.highestBidder.getD 0, a.carName⟩
          let r : EndedRecord :=
            ⟨a.carName, a.sellerId, a.highestBid, a.highestBidder.getD 0,
             .accepted⟩
          let s2 := { s1 with deals := s1.deals ++ [d] }
          let s3 := { s2 with endedLog := s2.endedLog ++ [r] }
          ({ s3 with auction := none }, .acceptedOk)

/-- `handle_auction_reject`: same gate and flip; on success log the
rejection and remove the row, creating no deal; on an exception revert the
status to `active`. -/
def handle_auction_reject (s : Store) (env : RejectEnv) : Store × Reply :=
  match s.auction with
  | none => (s, .noLongerActive)
  | some a =>
    if a.status ≠ .active ∧ a.status ≠ .ended then (s, .alreadyProcessed)
    else
      let aClosed := { a with status := .closed }
      let s1 := { s with auction := some aClosed }
      match env with
      | .fail =>
          ({ s1 with auction := some { aClosed with status := .active } },
           .errorReverted)
      | .ok =>
          let r : EndedRecord :=
            ⟨a.carName, a.sellerId, a.highestBid, a.highestBidder.getD 0,
             .rejected⟩
          let s2 := { s1 with endedLog := s1.endedLog ++ [r] }
          ({ s2 with auction := none }, .rejectedOk)

/-! ## Auction end transition (`end_auction`, auction.py lines 770-876) -/

/-- External outcomes of `end_auction`'s collaborator calls: whether
`bot.get_channel` finds the thread, whether the thread announcement send
raises (caught by the outer handler, which marks the row `expired` and
removes it), whether `send_seller_confirmation`'s DM succeeds (on failure
the row is marked `expired` and kept), and whether the no-bids logging and
seller-DM block completes. -/
structure EndAuctionEnv where
  threadExists : Bool
  threadSendOk : Bool
  sellerDmOk : Bool
  noBidsNotifyOk : Bool
deriving Repr, DecidableEq

/-- `end_auction`: mark the row `ended`; with a truthy highest bidder,
announce and request the seller's decision (keeping the row); otherwise
log the auction as `no_bids`, notify the seller, and remove the row.  No
deal is ever created here. -/
def end_auction (s : Store) (env : EndAuctionEnv) : Store × List Event :=
  match s.auction with
  | none => (s, [])
  | some a =>
    let aEnded := { a with status := AStatus.ended }
    if ¬ env.threadExists then ({ s with auction := none }, [])
    else if optTruthy aEnded.highestBidder then
      if ¬ env.threadSendOk then ({ s with auction := none }, [])
      else if env.sellerDmOk then
        ({ s with auction := some aEnded },
         [.auctionEndedAnnounce, .sellerDecisionRequest a.sellerId])
      else
        ({ s with auction := some { aEnded with status := .expired } },
         [.auctionEndedAnnounce])
    else
      if env.noBidsNotifyOk then
        let r : EndedRecord :=
          ⟨a.carName, a.sellerId, a.startingBid, 0, .no_bids⟩
        ({ s with auction := none, endedLog := s.endedLog ++ [r] },
         [.sellerNoBidsNotice a.sellerId])
      else
        ({ s with auction := none }, [])

/-! ## Giveaway resolution (`end_giveaway` and
`create_giveaway_claim_room`, giveaway.py lines 472-638) -/

/-- One `active_giveaways` row. -/
structure Giveaway where
  channelId : Nat
  carName : List Char
  hostId : Nat
  endTime : Nat
  participants : List Nat
deriving Repr, DecidableEq

/-- Store slice of one giveaway: its row and the `active_deals` table. -/
structure GStore where
  giveaway : Option Giveaway
  deals : List Deal
deriving Repr, DecidableEq

/-- External outcomes during giveaway resolution: whether the announcement
channel is found, whether a mutual guild for the claim room exists, and
whether claim-room channel creation succeeds. -/
structure GiveawayEnv where
  channelExists : Bool
  mutualGuildExists : Bool
  claimRoomOk : Bool
deriving Repr, DecidableEq

inductive GEvent where
  | winnerAnnounce (winnerId : Nat)
  | noParticipantsAnnounce
deriving Repr, DecidableEq

/-- `random.choice(participants)`: the uniform draw is modelled as an index
into the list; `random.choice` is exactly indexing by a uniformly drawn
index below the length. -/
def giveawayWinner (g : Giveaway) (pick : Nat) : Nat :=
  (g.participants.get? (pick % g.participants.length)).getD 0

/-- `create_giveaway_claim_room`: a missing mutual guild or a failed
channel creation returns without a deal (its own handler swallows the
error); otherwise `add_active_deal` records host and winner. -/
def create_giveaway_claim_room (s : GStore) (g : Giveaway) (winner : Nat)
    (env : GiveawayEnv) : GStore :=
  if ¬ env.mutualGuildExists then s
  else if ¬ env.claimRoomOk then s
  else
    let d : Deal := ⟨g.hostId, winner, g.carName⟩
    { s with deals := s.deals ++ [d] }

/-- `end_giveaway`: announce a uniformly chosen winner and create the claim
room when participants exist, announce no-participants otherwise; the
`finally` block removes the row in every path, including the
missing-channel early return and any caught exception. -/
def end_giveaway (s : GStore) (env : GiveawayEnv) (pick : Nat) :
    GStore × List GEvent :=
  match s.giveaway with
  | none => (s, [])
  | some g =>
    if ¬ env.channelExists then ({ s with giveaway := none }, [])
    else if ¬ g.participants.isEmpty then
      let winner := giveawayWinner g pick
      let s1 := create_giveaway_claim_room s g winner env
      ({ s1 with giveaway := none }, [.winnerAnnounce winner])
    else
      ({ s with giveaway := none }, [.noParticipantsAnnounce])

/-! ## Startup restore (`restore_active_auctions`, auction.py lines
2392-2511), as the list of actions taken for one stored row. -/

inductive RestoreAction where
  | replayMissedBids
  | endNow
  | scheduleEnd (delaySec : Int)
  | scheduleWarning (delaySec : Int)
  | removeRecord
deriving Repr, DecidableEq

/-- Seconds before the end at which the warning callback fires: 60 for test
auctions, 300 otherwise. -/
def warningOffsetSec (isTest : Bool) : Int := if isTest then 60 else 300

/-- `remaining_time = (end_time - current_time).total_seconds()`. -/
def remainingSec (a : Auction) (now : Nat) : Int :=
  (a.endTime : Int) - (now : Int)

/-- The restore pass for one row: drop non-active rows; for a row whose end
time is still ahead, replay missed bids then schedule the end callback for
the remaining seconds (and the warning callback when its delay is
positive); for a row already past its end time, replay missed bids (when
the thread is found) and end immediately, scheduling nothing. -/
def restore_one (a : Auction) (now : Nat) (threadExists : Bool) :
    List RestoreAction :=
  if a.status ≠ .active then [.removeRecord]
  else if now < a.endTime then
    if threadExists then
      if 0 < remainingSec a now then
        [.replayMissedBids, .scheduleEnd (remainingSec a now)] ++
          (if 0 < remainingSec a now - warningOffsetSec a.isTest then
            [.scheduleWarning (remainingSec a now - warningOffsetSec a.isTest)]
          else [])
      else [.replayMissedBids, .endNow]
    else [.removeRecord]
  else
    if a.status = .active then
      (if threadExists then [.replayMissedBids] else []) ++ [.endNow]
    else [.removeRecord]

/-! ## Concrete instances used by counterexamples and witnesses -/

/-- Fresh auction for the recovery example of §8: starting bid 100000, no
prior bids, seller identity 1. -/
def exAuction : Auction :=
  ⟨50, ['c', 'a', 'r'], 100000, 100000, none, 1, 500, .active, false⟩

/-- Downtime history for the recovery example: 150000 by A(=2), 120000 by
B(=3), 200000 by B(=3), in timestamp order. -/
def exHistory : List HMsg :=
  [⟨2, false, ['1', '5', '0', '0', '0', '0'], 10⟩,
   ⟨3, false, ['1', '2', '0', '0', '0', '0'], 20⟩,
   ⟨3, false, ['2', '0', '0', '0', '0', '0'], 30⟩]

/-- Auction used by the replay/live divergence counterexample. -/
def cxAuction : Auction :=
  ⟨50, ['c'], 100, 100, none, 1, 1000, .active, false⟩

/-- Two downtime bids by the same user 2: live would reject the second as
self-outbidding, replay accepts it. -/
def cxHistory : List HMsg :=
  [⟨2, false, ['1', '5', '0'], 10⟩, ⟨2, false, ['2', '0', '0'], 20⟩]

/-- History with distinct authors, for the amended replay claim witness. -/
def wHistory : List HMsg :=
  [⟨2, false, ['1', '5', '0'], 10⟩, ⟨3, false, ['2', '0', '0'], 20⟩]

/-- An ended auction with a highest bidder, awaiting the seller decision. -/
def cxEndedAuction : Auction :=
  ⟨50, ['c'], 100, 150, some 3, 1, 1000, .ended, false⟩

/-- Store holding only that ended auction. -/
def cxStore : Store := ⟨some cxEndedAuction, [], []⟩

/-- An active auction with no bids, for the no-bids end witness. -/
def wNoBidsStore : Store :=
  ⟨some ⟨50, ['c'], 100, 100, none, 1, 1000, .active, false⟩, [], []⟩

/-- A giveaway with two participants, host 9. -/
def wGiveaway : Giveaway := ⟨70, ['g'], 9, 400, [7, 8]⟩

def wGStore : GStore := ⟨some wGiveaway, []⟩

def wGiveawayEnvOk : GiveawayEnv := ⟨true, true, true⟩

def wEndEnvOk : EndAuctionEnv := ⟨true, true, true, true⟩

/-! ## Theorems -/

/-- Helper: a missing row always answers "no longer active". -/
theorem accept_of_none (s : Store) (e : AcceptEnv) (h : s.auction = none) :
    handle_auction_accept s e = (s, .noLongerActive) := by
  unfold handle_auction_accept
  rw [h]

/-- Helper: a missing row always answers "no longer active". -/
theorem reject_of_none (s : Store) (e : RejectEnv) (h : s.auction = none) :
    handle_auction_reject s e = (s, .noLongerActive) := by
  unfold handle_auction_reject
  rw [h]

/-- C5: Recovery replay applied to an auction with starting_bid 100000, no
prior bids, and a downtime history of 150000 by A, 120000 by B, 200000 by B
(in timestamp order) terminates with highest_bid 200000 and highest_bidder
B; the same holds for live processing of that sequence. -/
theorem recovery_replay_example_final_state :
    (process_missed_bids exAuction 500 exHistory).highestBid = 200000 ∧
    (process_missed_bids exAuction 500 exHistory).highestBidder = some 3 ∧
    process_missed_bids exAuction 500 exHistory = liveProcess exAuction exHistory := by
  decide

/-- C10: Every giveaway timer fire on an existing record deletes the record
from the store, whatever the environment does (missing announcement
channel, missing mutual guild, failed claim-room creation) and whatever the
random draw is: resolution never leaves the record open for retry. -/
theorem giveaway_record_always_deleted (s : GStore) (g : Giveaway)
    (env : GiveawayEnv) (pick : Nat) (hG : s.giveaway = some g) :
    (end_giveaway s env pick).1.giveaway = none := by
  unfold end_giveaway
  rw [hG]
  by_cases hc : env.channelExists <;>
    by_cases hp : g.participants.isEmpty <;>
      simp [hc, hp, create_giveaway_claim_room]

/-- Witness for `giveaway_record_always_deleted` at a concrete store with a
failing environment. -/
theorem giveaway_record_always_deleted_witness :
    (end_giveaway wGStore ⟨false, false, false⟩ 0).1.giveaway = none :=
  giveaway_record_always_deleted wGStore wGiveaway ⟨false, false, false⟩ 0 rfl

/-- C7: When the end timer fires for an auction whose highest_bidder is
unset and the thread and notification collaborators are healthy, the
auction is logged as `no_bids`, removed from the active store, the seller
is notified, and no deal handoff is created. -/
theorem no_bids_end_resolution (s : Store) (a : Auction)
    (env : EndAuctionEnv) (hA : s.auction = some a)
    (hNo : a.highestBidder = none) (hT : env.threadExists = true)
    (hN : env.noBidsNotifyOk = true) :
    (end_auction s env).1.auction = none ∧
    (end_auction s env).1.deals = s.deals ∧
    (end_auction s env).1.endedLog =
      s.endedLog ++ [⟨a.carName, a.sellerId, a.startingBid, 0, .no_bids⟩] ∧
    (end_auction s env).2 = [.sellerNoBidsNotice a.sellerId] := by
  unfold end_auction
  rw [hA]
  simp [hT, hN, hNo, optTruthy]

/-- Witness for `no_bids_end_resolution`. -/
theorem no_bids_end_resolution_witness :
    (end_auction wNoBidsStore wEndEnvOk).1.auction = none ∧
    (end_auction wNoBidsStore wEndEnvOk).1.deals = [] ∧
    (end_auction wNoBidsStore wEndEnvOk).1.endedLog =
      [] ++ [⟨['c'], 1, 100, 0, .no_bids⟩] ∧
    (end_auction wNoBidsStore wEndEnvOk).2 = [.sellerNoBidsNotice 1] :=
  no_bids_end_resolution wNoBidsStore _ wEndEnvOk rfl rfl rfl rfl

/-- C2 counterexample: delivering the accept decision twice in sequence
answers the second delivery with "no longer active" (the first delivery
removed the record), not "already processed"; and after a double reject no
deal handoff record exists at all (the claim asserts exactly one). -/
theorem second_decision_not_already_processed :
    (handle_auction_accept (handle_auction_accept cxStore .ok).1 .ok).2 =
      .noLongerActive ∧
    Reply.noLongerActive ≠ Reply.alreadyProcessed ∧
    (handle_auction_reject (handle_auction_reject cxStore .ok).1 .ok).1.deals
      = [] := by
  decide

/-- C2 (amended): the first delivery finds the status in {active, ended},
flips it to closed before side effects run, and is the only one to act: a
second delivery that still observes the record (it is delivered between the
flip and the removal, e.g. after a failed handoff left the status closed)
is answered "already processed" without mutating state, while a second
delivery after the first completed is answered "no longer active" without
mutating state; a completed accept appends exactly one deal handoff record
for the auction and a completed reject appends none. -/
theorem seller_decision_idempotency (s : Store) (a : Auction)
    (hA : s.auction = some a)
    (hSt : a.status = .active ∨ a.status = .ended) :
    (handle_auction_accept s .ok).2 = .acceptedOk ∧
    (handle_auction_accept s .ok).1.deals =
      s.deals ++ [⟨a.sellerId, a.highestBidder.getD 0, a.carName⟩] ∧
    (handle_auction_accept s .ok).1.auction = none ∧
    (∀ e2, handle_auction_accept (handle_auction_accept s .ok).1 e2 =
      ((handle_auction_accept s .ok).1, .noLongerActive)) ∧
    (∀ s' a' e', s'.auction = some a' → a'.status = .closed →
      handle_auction_accept s' e' = (s', .alreadyProcessed) ∧
      handle_auction_reject s' (.ok) = (s', .alreadyProcessed)) ∧
    (handle_auction_accept s .noMutualGuild).1.auction =
      some { a with status := .closed } ∧
    (handle_auction_reject s .ok).2 = .rejectedOk ∧
    (handle_auction_reject s .ok).1.deals = s.deals ∧
    (handle_auction_reject s .ok).1.auction = none ∧
    (∀ e2, handle_auction_reject (handle_auction_reject s .ok).1 e2 =
      ((handle_auction_reject s .ok).1, .noLongerActive)) := by
  have hGate : ¬ (a.status ≠ AStatus.active ∧ a.status ≠ AStatus.ended) := by
    rcases hSt with h | h <;> simp [h]
  refine ⟨?_, ?_, ?_, ?_, ?_, ?_, ?_, ?_, ?_, ?_⟩
  · unfold handle_auction_accept; rw [hA]; simp [hGate]
  · unfold handle_auction_accept; rw [hA]; simp [hGate]
  · unfold handle_auction_accept; rw [hA]; simp [hGate]
  · intro e2
    have h1 : (handle_auction_accept s .ok).1.auction = none := by
      unfold handle_auction_accept; rw [hA]; simp [hGate]
    exact accept_of_none _ e2 h1
  · intro s' a' e' hA' hC'
    constructor
    · unfold handle_auction_accept; rw [hA']; simp [hC']
    · unfold handle_auction_reject; rw [hA']; simp [hC']
  · unfold handle_auction_accept; rw [hA]; simp [hGate]
  · unfold handle_auction_reject; rw [hA]; simp [hGate]
  · unfold handle_auction_reject; rw [hA]; simp [hGate]
  · unfold handle_auction_reject; rw [hA]; simp [hGate]
  · intro e2
    have h1 : (handle_auction_reject s .ok).1.auction = none := by
      unfold handle_auction_reject; rw [hA]; simp [hGate]
    exact reject_of_none _ e2 h1

/-- Witness for `seller_decision_idempotency` at the concrete ended
auction. -/
theorem seller_decision_idempotency_witness :
    (handle_auction_accept cxStore .ok).2 = .acceptedOk ∧
    (handle_auction_accept cxStore .ok).1.deals = [] ++ [⟨1, 3, ['c']⟩] ∧
    (handle_auction_accept cxStore .ok).1.auction = none := by
  obtain ⟨h1, h2, h3, _⟩ :=
    seller_decision_idempotency cxStore cxEndedAuction rfl (Or.inr rfl)
  exact ⟨h1, h2, h3⟩

/-- C4 counterexample: when the mutual-guild search fails after the flip,
the handler returns early with the record left in status closed, no deal
handoff created and no compensation back to active. -/
theorem no_guild_leaves_closed_without_deal :
    (handle_auction_accept cxStore .noMutualGuild).1.auction.map
      Auction.status = some .closed ∧
    (handle_auction_accept cxStore .noMutualGuild).1.deals = [] ∧
    (handle_auction_accept cxStore .noMutualGuild).2 = .errorNoGuild ∧
    AStatus.closed ≠ AStatus.active := by
  decide

/-- C4 (amended): compensation applies exactly to side-effect failures that
raise an exception after the flip: there the status is reverted to active
and the record remains in the store for retry (whether the failure hit
before or after deal creation, and likewise for reject); the mutual-guild
search failing, however, returns early and leaves the record in closed with
no deal handoff created. -/
theorem exception_after_flip_compensates (s : Store) (a : Auction)
    (hA : s.auction = some a)
    (hSt : a.status = .active ∨ a.status = .ended) :
    (handle_auction_accept s .failBeforeDeal).1.auction =
      some { a with status := .active } ∧
    (handle_auction_accept s .failBeforeDeal).1.deals = s.deals ∧
    (handle_auction_accept s .failAfterDeal).1.auction =
      some { a with status := .active } ∧
    (handle_auction_reject s .fail).1.auction =
      some { a with status := .active } ∧
    (handle_auction_accept s .noMutualGuild).1.auction =
      some { a with status := .closed } ∧
    (handle_auction_accept s .noMutualGuild).1.deals = s.deals := by
  have hGate : ¬ (a.status ≠ AStatus.active ∧ a.status ≠ AStatus.ended) := by
    rcases hSt with h | h <;> simp [h]
  refine ⟨?_, ?_, ?_, ?_, ?_, ?_⟩ <;>
    first
      | (unfold handle_auction_accept; rw [hA]; simp [hGate])
      | (unfold handle_auction_reject; rw [hA]; simp [hGate])

/-- Witness for `exception_after_flip_compensates`. -/
theorem exception_after_flip_compensates_witness :
    (handle_auction_accept cxStore .failBeforeDeal).1.auction =
      some { cxEndedAuction with status := .active } ∧
    (handle_auction_accept cxStore .failBeforeDeal).1.deals = [] := by
  obtain ⟨h1, h2, _⟩ :=
    exception_after_flip_compensates cxStore cxEndedAuction rfl (Or.inr rfl)
  exact ⟨h1, h2⟩

/-- C9: For a still-active row already past its end time (with the thread
found), the restore pass replays missed bids and then ends the auction
immediately; and no end or warning callback is ever scheduled with a
non-positive delay, for any row and any clock. -/
theorem restore_past_due_ends_immediately (a : Auction) (now : Nat)
    (te : Bool) :
    (a.status = .active → a.endTime ≤ now →
      restore_one a now true = [.replayMissedBids, .endNow]) ∧
    (∀ d, RestoreAction.scheduleEnd d ∈ restore_one a now te → 0 < d) ∧
    (∀ d, RestoreAction.scheduleWarning d ∈ restore_one a now te → 0 < d) := by
  refine ⟨?_, ?_, ?_⟩
  · intro hSt hPast
    unfold restore_one
    simp [hSt, Nat.not_lt_of_le hPast]
  · intro d hd
    unfold restore_one at hd
    split_ifs at hd <;> simp_all
  · intro d hd
    unfold restore_one at hd
    split_ifs at hd <;> simp_all

/-- Witness for `restore_past_due_ends_immediately` at a concrete past-due
auction. -/
theorem restore_past_due_ends_immediately_witness :
    restore_one cxAuction 2000 true = [.replayMissedBids, .endNow] :=
  (restore_past_due_ends_immediately cxAuction 2000 true).1 rfl (by decide)

/-- Helper: everything the validator guarantees on acceptance. -/
theorem accept_inv {a : Auction} {u : Nat} {c : List Char} {amt : Nat}
    {prev : Option Nat}
    (h : handle_auction_bid a u c = .accept amt prev) :
    prev = a.highestBidder ∧ a.highestBid < amt ∧ amt ≤ BID_CEILING ∧
    0 < amt ∧ u ≠ a.sellerId ∧ normalizeBid c = some amt ∧
    ¬(optTruthy a.highestBidder = true ∧ a.highestBidder = some u) := by
  unfold handle_auction_bid at h
  split at h
  next => cases h
  next h1 =>
    split at h
    next => cases h
    next h2 =>
      split at h
      next => cases h
      next v hn =>
        split at h
        next => cases h
        next e0 =>
          split at h
          next => cases h
          next eC =>
            split at h
            next => cases h
            next eH =>
              injection h with hAmt hPrev
              subst hAmt
              refine ⟨hPrev.symm, by omega, by omega, by omega, h1, hn, ?_⟩
              intro hcon
              rcases hcon with ⟨ht, he⟩
              rw [he] at ht
              exact h2 (by rw [he]; simp [ht])

/-- C3: the validator applies the spec's five rules in the spec's order,
and on acceptance stores the amount as the new highest bid with the author
as highest bidder while the previous highest bidder is the outbid-notice
target. -/
theorem bid_validator_rules_in_order (a : Auction) (u : Nat) (c : List Char)
    (t : Nat) (hWF : a.highestBidder ≠ some 0) :
    handle_auction_bid a u c = validateSpec a u c ∧
    (∀ amt prev, handle_auction_bid a u c = .accept amt prev →
      prev = a.highestBidder ∧ a.highestBid < amt ∧
      liveStep a ⟨u, false, c, t⟩ =
        { a with highestBid := amt, highestBidder := some u }) ∧
    (∀ amt p, handle_auction_bid a u c = .accept amt (some p) →
      p ≠ u →
      liveStepEvents a ⟨u, false, c, t⟩ = [.outbidNotice p amt]) := by
  refine ⟨?_, ?_, ?_⟩
  · unfold handle_auction_bid validateSpec
    by_cases hs : u = a.sellerId
    · simp [hs]
    · simp only [if_neg hs]
      cases hb : a.highestBidder with
      | none => simp [optTruthy]
      | some p =>
        have hp : p ≠ 0 := fun h => hWF (by rw [hb, h])
        by_cases he : p = u
        · subst he
          simp [optTruthy, hp]
        · simp [optTruthy, hp, he]
  · intro amt prev h
    obtain ⟨hPrev, hLt, _, _, _, _, _⟩ := accept_inv h
    refine ⟨hPrev, hLt, ?_⟩
    unfold liveStep
    simp [h, update_auction_bid]
  · intro amt p h hne
    obtain ⟨hPrev, _, _, _, _, _, _⟩ := accept_inv h
    have hp : p ≠ 0 := fun h0 => hWF (by rw [← hPrev, h0])
    unfold liveStepEvents
    simp [h, hp, hne]

/-- C8: every write of the bid fields stores a strictly larger amount than
the highest_bid it replaces — one live delivery and one replay application
either leave the record unchanged or strictly increase highest_bid — so
over any live or replayed sequence the stored highest_bid never decreases. -/
theorem highest_bid_strictly_increasing :
    (∀ (a : Auction) (m : HMsg),
      liveStep a m = a ∨ a.highestBid < (liveStep a m).highestBid) ∧
    (∀ (a : Auction) (b : MissedBid),
      replayApplyStep a b = a ∨
        a.highestBid < (replayApplyStep a b).highestBid) ∧
    (∀ (a : Auction) (msgs : List HMsg),
      a.highestBid ≤ (liveProcess a msgs).highestBid) ∧
    (∀ (a : Auction) (bids : List MissedBid),
      a.highestBid ≤ (replayApply a bids).highestBid) := by
  have hLive : ∀ (a : Auction) (m : HMsg),
      liveStep a m = a ∨ a.highestBid < (liveStep a m).highestBid := by
    intro a m
    unfold liveStep
    by_cases hb : m.isBot
    · exact Or.inl (by simp [hb])
    · simp only [hb, if_neg, Bool.false_eq_true, not_false_iff, if_false]
      cases hout : handle_auction_bid a m.authorId m.content with
      | accept amt prev =>
        right
        obtain ⟨_, hLt, _⟩ := accept_inv hout
        simp only [update_auction_bid]
        exact hLt
      | rejectSeller => exact Or.inl rfl
      | rejectSelfOutbid => exact Or.inl rfl
      | rejectNotPositiveInt => exact Or.inl rfl
      | rejectTooLarge => exact Or.inl rfl
      | rejectNotHigher => exact Or.inl rfl
  have hRep : ∀ (a : Auction) (b : MissedBid),
      replayApplyStep a b = a ∨
        a.highestBid < (replayApplyStep a b).highestBid := by
    intro a b
    unfold replayApplyStep
    by_cases hlt : a.highestBid < b.amount
    · right
      simp only [hlt, if_true, update_auction_bid]
    · exact Or.inl (by simp [hlt])
  refine ⟨hLive, hRep, ?_, ?_⟩
  · intro a msgs
    induction msgs generalizing a with
    | nil => simp [liveProcess]
    | cons m ms ih =>
      have step := hLive a m
      calc a.highestBid ≤ (liveStep a m).highestBid := by
            rcases step with h | h
            · rw [h]
            · exact Nat.le_of_lt h
        _ ≤ (liveProcess (liveStep a m) ms).highestBid := ih _
        _ = (liveProcess a (m :: ms)).highestBid := rfl
  · intro a bids
    induction bids generalizing a with
    | nil => simp [replayApply]
    | cons b bs ih =>
      have step := hRep a b
      calc a.highestBid ≤ (replayApplyStep a b).highestBid := by
            rcases step with h | h
            · rw [h]
            · exact Nat.le_of_lt h
        _ ≤ (replayApply (replayApplyStep a b) bs).highestBid := ih _
        _ = (replayApply a (b :: bs)).highestBid := rfl

/-- Witness for `bid_validator_rules_in_order` at a concrete auction and
bid message. -/
theorem bid_validator_rules_in_order_witness :
    handle_auction_bid cxAuction 2 (['1', '5', '0']) =
      validateSpec cxAuction 2 (['1', '5', '0']) :=
  (bid_validator_rules_in_order cxAuction 2 (['1', '5', '0']) 0
    (by decide)).1

/-- C6: with the announcement channel found, resolving a giveaway with a
non-empty participant set announces a winner drawn by uniform index from
the participant list — the winner is always a member, distinct indices
select distinct participants (given the deduplicated join set), and every
participant is selected by some index — and, when a mutual guild exists and
claim-room creation succeeds, appends one deal handoff pairing host and
winner; resolving with an empty set returns normally with the
no-participants event and no deal. -/
theorem giveaway_resolution_correct (s : GStore) (g : Giveaway)
    (env : GiveawayEnv) (pick : Nat) (hG : s.giveaway = some g)
    (hC : env.channelExists = true) :
    (g.participants ≠ [] →
      giveawayWinner g pick ∈ g.participants ∧
      (end_giveaway s env pick).2 =
        [.winnerAnnounce (giveawayWinner g pick)] ∧
      (env.mutualGuildExists = true → env.claimRoomOk = true →
        (end_giveaway s env pick).1.deals =
          s.deals ++ [⟨g.hostId, giveawayWinner g pick, g.carName⟩])) ∧
    (g.participants.Nodup → ∀ i j, i < g.participants.length →
      j < g.participants.length →
      giveawayWinner g i = giveawayWinner g j → i = j) ∧
    (∀ w ∈ g.participants, ∃ i, i < g.participants.length ∧
      giveawayWinner g i = w) ∧
    (g.participants = [] →
      end_giveaway s env pick =
        ({ s with giveaway := none }, [.noParticipantsAnnounce])) := by
  refine ⟨?_, ?_, ?_, ?_⟩
  · intro hne
    have hlen : 0 < g.participants.length := List.length_pos.mpr hne
    have hmod : pick % g.participants.length < g.participants.length :=
      Nat.mod_lt _ hlen
    have hwin : giveawayWinner g pick =
        g.participants.get ⟨pick % g.participants.length, hmod⟩ := by
      unfold giveawayWinner
      rw [List.get?_eq_get hmod]
      rfl
    refine ⟨?_, ?_, ?_⟩
    · rw [hwin]; exact List.get_mem _ _ _
    · unfold end_giveaway
      rw [hG]
      simp [hC, List.isEmpty_iff, hne]
    · intro hm hr
      unfold end_giveaway
      rw [hG]
      simp [hC, List.isEmpty_iff, hne, create_giveaway_claim_room, hm, hr]
  · intro hnd i j hi hj hij
    have hwi : giveawayWinner g i = g.participants.get ⟨i, hi⟩ := by
      unfold giveawayWinner
      rw [Nat.mod_eq_of_lt hi, List.get?_eq_get hi]
      rfl
    have hwj : giveawayWinner g j = g.participants.get ⟨j, hj⟩ := by
      unfold giveawayWinner
      rw [Nat.mod_eq_of_lt hj, List.get?_eq_get hj]
      rfl
    rw [hwi, hwj] at hij
    have h := (List.Nodup.get_inj_iff hnd).mp hij
    exact congrArg Fin.val h
  · intro w hw
    obtain ⟨⟨i, hi⟩, hget⟩ := List.mem_iff_get.mp hw
    refine ⟨i, hi, ?_⟩
    unfold giveawayWinner
    rw [Nat.mod_eq_of_lt hi, List.get?_eq_get hi]
    simpa using hget
  · intro hemp
    unfold end_giveaway
    rw [hG]
    simp [hC, hemp]

/-- Witness for `giveaway_resolution_correct` at a two-participant
giveaway with draw index 1. -/
theorem giveaway_resolution_correct_witness :
    giveawayWinner wGiveaway 1 ∈ wGiveaway.participants ∧
    (end_giveaway wGStore wGiveawayEnvOk 1).1.deals =
      [] ++ [⟨9, giveawayWinner wGiveaway 1, ['g']⟩] := by
  obtain ⟨h1, _, _, _⟩ :=
    giveaway_resolution_correct wGStore wGiveaway wGiveawayEnvOk 1 rfl rfl
  obtain ⟨hmem, _, hdeal⟩ := h1 (by decide)
  exact ⟨hmem, hdeal rfl rfl⟩

/-- C1 counterexample: a chronological in-window downtime history of two
bids by the same user diverges — replay accepts the self-outbid that live
processing rejects. -/
theorem replay_accepts_self_outbid :
    (process_missed_bids cxAuction 1000 cxHistory).highestBid = 200 ∧
    (liveProcess cxAuction cxHistory).highestBid = 150 ∧
    process_missed_bids cxAuction 1000 cxHistory ≠
      liveProcess cxAuction cxHistory := by
  decide

/-- Helper: every candidate the scan collects carries the timestamp of a
history message. -/
theorem replayScan_timestamp_mem (sel sb : Nat) (sbr : Option Nat) (T : Nat) :
    ∀ (hist : List HMsg) (lb : Option Nat) (b : MissedBid),
      b ∈ replayScan sel sb sbr T lb hist →
      ∃ m ∈ hist, b.timestamp = m.createdAt := by
  intro hist
  induction hist with
  | nil => intro lb b hb; simp [replayScan] at hb
  | cons m ms ih =>
    intro lb b hb
    have lift : ∀ (lb' : Option Nat), b ∈ replayScan sel sb sbr T lb' ms →
        ∃ m' ∈ m :: ms, b.timestamp = m'.createdAt := by
      intro lb' h
      obtain ⟨m', hm', ht⟩ := ih lb' b h
      exact ⟨m', List.mem_cons_of_mem _ hm', ht⟩
    simp only [replayScan] at hb
    split at hb
    · exact lift _ hb
    · split at hb
      · exact lift _ hb
      · split at hb
        · exact lift _ hb
        · split at hb
          · exact lift _ hb
          · split at hb
            · exact lift _ hb
            · split at hb
              · exact lift _ hb
              · split at hb
                · rcases List.mem_cons.mp hb with h | h
                  · exact ⟨m, List.mem_cons_self _ _, by rw [h]⟩
                  · exact lift _ h
                · exact lift _ hb

/-- Helper: on a chronologically ordered history the scan's output is
ordered by timestamp. -/
theorem replayScan_sorted (sel sb : Nat) (sbr : Option Nat) (T : Nat) :
    ∀ (hist : List HMsg) (lb : Option Nat),
      List.Pairwise (fun x y => x.createdAt ≤ y.createdAt) hist →
      List.Pairwise (fun x y : MissedBid => x.timestamp ≤ y.timestamp)
        (replayScan sel sb sbr T lb hist) := by
  intro hist
  induction hist with
  | nil => intro lb _; simp [replayScan]
  | cons m ms ih =>
    intro lb hp
    rcases List.pairwise_cons.mp hp with ⟨hhead, htail⟩
    simp only [replayScan]
    split
    · exact ih _ htail
    · split
      · exact ih _ htail
      · split
        · exact ih _ htail
        · split
          · exact ih _ htail
          · split
            · exact ih _ htail
            · split
              · exact ih _ htail
              · split
                · refine List.pairwise_cons.mpr ⟨?_, ih _ htail⟩
                  intro b hb
                  obtain ⟨m', hm', ht⟩ :=
                    replayScan_timestamp_mem sel sb sbr T ms _ b hb
                  show m.createdAt ≤ b.timestamp
                  rw [ht]
                  exact hhead m' hm'
                · exact ih _ htail

/-- Helper: a list already ordered by timestamp is a fixed point of the
stable sort. -/
theorem sortByTs_of_sorted :
    ∀ (l : List MissedBid),
      List.Pairwise (fun x y => x.timestamp ≤ y.timestamp) l →
      sortByTs l = l := by
  intro l
  induction l with
  | nil => intro _; rfl
  | cons x xs ih =>
    intro hp
    rcases List.pairwise_cons.mp hp with ⟨hx, hxs⟩
    simp only [sortByTs, ih hxs]
    cases xs with
    | nil => rfl
    | cons y ys =>
      simp only [insertByTs]
      rw [if_pos (hx y (List.mem_cons_self _ _))]

/-- Helper: the replay pipeline coincides with live processing when the
downtime messages are non-bot, inside the window, by pairwise-distinct
authors no one of whom is the snapshot highest bidder. -/
theorem scanApply_eq_live (sel sb : Nat) (sbr : Option Nat) (T : Nat) :
    ∀ (hist : List HMsg) (a : Auction),
      a.sellerId = sel →
      sb ≤ a.highestBid →
      (∀ m ∈ hist, m.isBot = false) →
      (∀ m ∈ hist, m.createdAt ≤ T) →
      List.Pairwise (fun x y => x.authorId ≠ y.authorId) hist →
      (∀ m ∈ hist, sbr ≠ some m.authorId) →
      (∀ m ∈ hist, a.highestBidder ≠ some m.authorId) →
      replayApply a (replayScan sel sb sbr T none hist) = liveProcess a hist := by
  intro hist
  induction hist with
  | nil => intro a _ _ _ _ _ _ _; rfl
  | cons m ms ih =>
    intro a hSel hSb hBot hWin hDist hSnap hCur
    have hbot : m.isBot = false := hBot m (List.mem_cons_self _ _)
    have hwin : ¬ (T < m.createdAt) :=
      Nat.not_lt.mpr (hWin m (List.mem_cons_self _ _))
    have hsnap : sbr ≠ some m.authorId := hSnap m (List.mem_cons_self _ _)
    have hcur : a.highestBidder ≠ some m.authorId :=
      hCur m (List.mem_cons_self _ _)
    have hbeq : (a.highestBidder == some m.authorId) = false :=
      beq_eq_false_iff_ne.mpr hcur
    have hbne : (sbr != some m.authorId) = true := bne_iff_ne.mpr hsnap
    rcases List.pairwise_cons.mp hDist with ⟨hDistHead, hDistTail⟩
    have hBot' := fun m' hm' => hBot m' (List.mem_cons_of_mem _ hm')
    have hWin' := fun m' hm' => hWin m' (List.mem_cons_of_mem _ hm')
    have hSnap' := fun m' hm' => hSnap m' (List.mem_cons_of_mem _ hm')
    have hCur' := fun m' hm' => hCur m' (List.mem_cons_of_mem _ hm')
    have hFold : liveProcess a (m :: ms) = liveProcess (liveStep a m) ms := rfl
    by_cases hsel : m.authorId = sel
    · have hscan : replayScan sel sb sbr T none (m :: ms) =
          replayScan sel sb sbr T none ms := by
        simp [replayScan, hbot, hsel, hwin]
      have hstep : liveStep a m = a := by
        unfold liveStep handle_auction_bid
        simp [hbot, hsel, hSel]
      rw [hscan, hFold, hstep]
      exact ih a hSel hSb hBot' hWin' hDistTail hSnap' hCur'
    · cases hn : normalizeBid m.content with
      | none =>
        have hscan : replayScan sel sb sbr T none (m :: ms) =
            replayScan sel sb sbr T none ms := by
          simp [replayScan, hbot, hsel, hwin, hn]
        have hstep : liveStep a m = a := by
          unfold liveStep handle_auction_bid
          simp [hbot, hsel, hSel, hbeq, hn]
        rw [hscan, hFold, hstep]
        exact ih a hSel hSb hBot' hWin' hDistTail hSnap' hCur'
      | some amt =>
        by_cases h0 : amt = 0
        · have hscan : replayScan sel sb sbr T none (m :: ms) =
              replayScan sel sb sbr T none ms := by
            simp [replayScan, hbot, hsel, hwin, hn, h0]
          have hstep : liveStep a m = a := by
            unfold liveStep handle_auction_bid
            simp [hbot, hsel, hSel, hbeq, hn, h0]
          rw [hscan, hFold, hstep]
          exact ih a hSel hSb hBot' hWin' hDistTail hSnap' hCur'
        · by_cases hCeil : BID_CEILING < amt
          · have hscan : replayScan sel sb sbr T none (m :: ms) =
                replayScan sel sb sbr T none ms := by
              simp [replayScan, hbot, hsel, hwin, hn, h0, hCeil]
            have hstep : liveStep a m = a := by
              unfold liveStep handle_auction_bid
              simp [hbot, hsel, hSel, hbeq, hn, h0, hCeil]
            rw [hscan, hFold, hstep]
            exact ih a hSel hSb hBot' hWin' hDistTail hSnap' hCur'
          · by_cases hlt : sb < amt
            · have hscan : replayScan sel sb sbr T none (m :: ms) =
                  (⟨amt, m.authorId, m.createdAt⟩ : MissedBid) ::
                    replayScan sel sb sbr T none ms := by
                simp [replayScan, hbot, hsel, hwin, hn, h0, hCeil, hlt, hbne]
              rw [hscan, hFold]
              by_cases hclt : a.highestBid < amt
              · have hstepL : liveStep a m =
                    update_auction_bid a amt m.authorId := by
                  unfold liveStep handle_auction_bid
                  simp [hbot, hsel, hSel, hbeq, hn, h0, hCeil,
                    Nat.not_le.mpr hclt]
                have hstepR :
                    replayApplyStep a ⟨amt, m.authorId, m.createdAt⟩ =
                      update_auction_bid a amt m.authorId := by
                  simp [replayApplyStep, hclt]
                show replayApply (replayApplyStep a _) _ = _
                rw [hstepR, hstepL]
                refine ih (update_auction_bid a amt m.authorId)
                  (by simp [update_auction_bid, hSel])
                  (Nat.le_of_lt hlt) hBot' hWin' hDistTail hSnap' ?_
                intro m' hm'
                simp only [update_auction_bid]
                intro hEq
                exact hDistHead m' hm' (Option.some.inj hEq)
              · have hle : amt ≤ a.highestBid := Nat.not_lt.mp hclt
                have hstepL : liveStep a m = a := by
                  unfold liveStep handle_auction_bid
                  simp [hbot, hsel, hSel, hbeq, hn, h0, hCeil, hle]
                have hstepR :
                    replayApplyStep a ⟨amt, m.authorId, m.createdAt⟩ = a := by
                  simp [replayApplyStep, hclt]
                show replayApply (replayApplyStep a _) _ = _
                rw [hstepR, hstepL]
                exact ih a hSel hSb hBot' hWin' hDistTail hSnap' hCur'
            · have hle : amt ≤ a.highestBid :=
                Nat.le_trans (Nat.not_lt.mp hlt) hSb
              have hscan : replayScan sel sb sbr T none (m :: ms) =
                  replayScan sel sb sbr T none ms := by
                simp [replayScan, hbot, hsel, hwin, hn, h0, hCeil, hlt]
              have hstep : liveStep a m = a := by
                unfold liveStep handle_auction_bid
                simp [hbot, hsel, hSel, hbeq, hn, h0, hCeil, hle]
              rw [hscan, hFold, hstep]
              exact ih a hSel hSb hBot' hWin' hDistTail hSnap' hCur'

/-- C1 (amended): replay reproduces the live outcome when the downtime
messages are chronological, inside the auction window, non-bot, by
pairwise-distinct authors none of whom is the pre-downtime highest
bidder. -/
theorem replay_matches_live (a : Auction) (T : Nat) (hist : List HMsg)
    (hBot : ∀ m ∈ hist, m.isBot = false)
    (hWin : ∀ m ∈ hist, m.createdAt ≤ T)
    (hChron : List.Pairwise (fun x y => x.createdAt ≤ y.createdAt) hist)
    (hDist : List.Pairwise (fun x y => x.authorId ≠ y.authorId) hist)
    (hSnap : ∀ m ∈ hist, a.highestBidder ≠ some m.authorId) :
    process_missed_bids a T hist = liveProcess a hist := by
  unfold process_missed_bids
  rw [sortByTs_of_sorted _
    (replayScan_sorted a.sellerId a.highestBid a.highestBidder T hist none
      hChron)]
  exact scanApply_eq_live a.sellerId a.highestBid a.highestBidder T hist a
    rfl Nat.le.refl hBot hWin hDist hSnap hSnap

/-- Witness for `replay_matches_live` on a concrete two-author history. -/
theorem replay_matches_live_witness :
    process_missed_bids cxAuction 1000 wHistory =
      liveProcess cxAuction wHistory :=
  replay_matches_live cxAuction 1000 wHistory (by decide) (by decide)
    (by decide) (by decide) (by decide)

end Marketplace
